import Mathlib

/-!
Verification development for the NestTestKit test-database toolkit.

The definitions below are a shallow embedding of the core of the library:
the seeder dependency-resolution engine shared by the three
`TestDatabase` variants, the lifecycle state of a `TestDatabase`
instance, the manager registry, the per-backend id generators, and the
cleanup dispatch of the three adapters (Prisma, TypeORM, Mongoose).
Asynchronous effectful code is embedded as explicit state passing with
`Except`/`Option` for thrown errors; the external database is an
explicit state value threaded through the adapter operations.
-/

set_option maxHeartbeats 1000000

namespace NestTestKit

/-- A named seeder with its declared dependency names
(`DatabaseSeeder` from `core/interfaces`). The seeding body itself is
effectful and is supplied separately where it matters. -/
structure Seeder where
  name : String
  dependencies : List String
deriving Repr, DecidableEq

/-- The errors `resolveDependencies` can throw.  `circular n` embeds the
throw on `visiting.has(seederName)`; `notFound n` embeds the throw when
the name is absent from the seeder map.  `fuelExhausted` is an artifact
of the fuel-based embedding of the recursive `visit`; it is proved
unreachable for the fuel used by `resolveDependencies`. -/
inductive ResolveError where
  | circular (name : String)
  | notFound (name : String)
  | fuelExhausted
deriving Repr, DecidableEq

/-- The mutable state of `resolveDependencies`: the output accumulator
`resolved`, and the `visiting` / `visited` sets (kept as lists). -/
structure RState where
  resolved : List Seeder
  visiting : List String
  visited : List String
deriving Repr, DecidableEq

/-- `seederMap`: the `Map` built by `seeders.forEach(s => map.set(s.name, s))`.
A later seeder with the same name overwrites an earlier one, so lookup
returns the last occurrence. -/
def seederMap (seeders : List Seeder) (n : String) : Option Seeder :=
  seeders.reverse.find? (fun s => s.name == n)

/-- Sequentially run a visitor over a list of names, stopping at the
first thrown error (the `for (const dep of seeder.dependencies)` loop and
the outer `for (const seeder of seeders)` loop). -/
def seqVisit (f : String → RState → Except ResolveError RState) :
    List String → RState → Except ResolveError RState
  | [], st => Except.ok st
  | d :: ds, st =>
    match f d st with
    | Except.error e => Except.error e
    | Except.ok st' => seqVisit f ds st'

/-- The recursive `visit` closure of `resolveDependencies`, with a fuel
parameter bounding recursion depth.  Mirrors the source line by line:
return if visited; throw circular if on the active path; throw not-found
if absent from the map; otherwise mark visiting, visit the declared
dependencies, unmark, mark visited and append to the output. -/
def visit (m : String → Option Seeder) : Nat → String → RState → Except ResolveError RState
  | 0, _, _ => Except.error ResolveError.fuelExhausted
  | Nat.succ fuel, n, st =>
    if st.visited.contains n then Except.ok st
    else if st.visiting.contains n then Except.error (ResolveError.circular n)
    else
      match m n with
      | none => Except.error (ResolveError.notFound n)
      | some s =>
        match seqVisit (visit m fuel) s.dependencies { st with visiting := n :: st.visiting } with
        | Except.error e => Except.error e
        | Except.ok st2 =>
          Except.ok { resolved := st2.resolved ++ [s],
                      visiting := st2.visiting.erase n,
                      visited := n :: st2.visited }

/-- The starting state: empty accumulator and empty visiting/visited sets. -/
def initialRState : RState := ⟨[], [], []⟩

/-- `TestDatabase.resolveDependencies`: build the name map, then visit
every input seeder in original order.  Each top-level visit gets fuel
`seeders.length + 1`, which is proved sufficient (`visit` maintains
`fuel + visiting.length = seeders.length + 1` and `visiting` holds
distinct names of the input). -/
def resolveDependencies (seeders : List Seeder) : Except ResolveError (List Seeder) :=
  match seqVisit (visit (seederMap seeders) (seeders.length + 1))
      (seeders.map Seeder.name) initialRState with
  | Except.error e => Except.error e
  | Except.ok st => Except.ok st.resolved

/-- The direct dependency edge induced by a name-to-seeder map:
`a` depends on `b` when the seeder registered under `a` declares `b`. -/
def depEdge (m : String → Option Seeder) (a b : String) : Prop :=
  ∃ s, m a = some s ∧ b ∈ s.dependencies

/-- An output list is topologically ordered when every element's declared
dependency names occur among the names of the elements before it. -/
def TopoOrdered (l : List Seeder) : Prop :=
  ∀ p s suffix, l = p ++ s :: suffix → ∀ d ∈ s.dependencies, d ∈ p.map Seeder.name

/-- What one successful `visit` call does to the resolution state: the
active path is restored, the output only grows at the end, the visited
set only grows, and every newly visited name was not on the active path. -/
def VisitStep (st st' : RState) : Prop :=
  st'.visiting = st.visiting ∧
  (∃ ext, st'.resolved = st.resolved ++ ext) ∧
  (∀ y ∈ st.visited, y ∈ st'.visited) ∧
  (∀ y ∈ st'.visited, y ∈ st.visited ∨ y ∉ st.visiting)


/-- The invariant maintained by `visit` on resolution states: the visited
set is exactly the (reversed) name list of the output, output elements
come from the map under their own name, visited names are distinct, and
the output accumulated so far is topologically ordered. -/
def StInv (m : String → Option Seeder) (st : RState) : Prop :=
  st.visited = (st.resolved.map Seeder.name).reverse ∧
  (∀ s ∈ st.resolved, m s.name = some s) ∧
  st.visited.Nodup ∧
  TopoOrdered st.resolved


/-! ### TestDatabase lifecycle state (core/test-database-manager and the
mongoose/typeorm variants) -/

/-- The lifecycle-relevant state of a `TestDatabase` instance:
`isInitialized` is the instance flag set only by a successful
`initialize()` and never reset; `clientSet` models whether the owned
adapter holds a live client/connection (nulled by `adapter.close()`). -/
structure TestDb where
  isInitialized : Bool
  clientSet : Bool
deriving Repr, DecidableEq

/-- A freshly constructed instance. -/
def newTestDb : TestDb := ⟨false, false⟩

/-- Lifecycle operations on one instance.  `initOp ok reached`: one call
to `initialize()`; `ok` is whether adapter initialization succeeded, and
`reached` is whether a failing run got as far as constructing the client
before throwing (in `PrismaAdapter.initialize` the client is constructed
before migrations are applied and `$connect` is awaited, so a failure can
leave the adapter client set).  `destroyOp` is `destroy()`: the adapter
is closed (client nulled), but `isInitialized` is not reset. -/
inductive DbOp where
  | initOp (ok : Bool) (reached : Bool)
  | destroyOp
deriving Repr, DecidableEq

def stepOp (st : TestDb) : DbOp → TestDb
  | DbOp.initOp true _ => ⟨true, true⟩
  | DbOp.initOp false reached => ⟨st.isInitialized, st.clientSet || reached⟩
  | DbOp.destroyOp => ⟨st.isInitialized, false⟩

/-- Run a sequence of lifecycle operations on a fresh instance. -/
def runOps (ops : List DbOp) : TestDb := ops.foldl stepOp newTestDb

/-- State errors observable through `getClient`/`getConnection`: the
instance-level guard message and the adapter-level guard message (both
"not initialized" errors). -/
inductive StateErr where
  | notInitialized
  | adapterNotInitialized
deriving Repr, DecidableEq

/-- `TestDatabase.getClient` / `MongooseTestDatabase.getConnection`: the
instance guard checks `isInitialized`; the adapter's `getConnection`
then throws if its client/connection is null (which, the methods being
async in the source, surfaces when the returned promise is awaited). -/
def getClient (st : TestDb) : Except StateErr Unit :=
  if !st.isInitialized then Except.error StateErr.notInitialized
  else if !st.clientSet then Except.error StateErr.adapterNotInitialized
  else Except.ok ()

/-! ### The seed entry point -/

/-- Errors a `seed` call can surface: the state error from `getClient`,
a resolution error, or a seeder body failure wrapped with the failing
seeder's name (`Failed to run seeder ...`). -/
inductive SeedErr where
  | state (e : StateErr)
  | resolve (e : ResolveError)
  | seederFailed (name : String) (msg : String)
deriving Repr, DecidableEq

/-- The `for (const seeder of sortedSeeders)` loop of `seed`: run each
body in order; on the first throw, wrap with the seeder's name and stop.
Returns the names whose bodies were invoked and the error, if any. -/
def runSeeders (body : Seeder → Except String Unit) :
    List Seeder → List String × Option SeedErr
  | [] => ([], none)
  | s :: rest =>
    match body s with
    | Except.error msg => ([s.name], some (SeedErr.seederFailed s.name msg))
    | Except.ok _ =>
      let r := runSeeders body rest
      (s.name :: r.1, r.2)

/-- `TestDatabase.seed` on a seeder list: obtain the client, resolve the
dependency order, then run the resolved seeders in order.  The first
component is the trace of seeder bodies invoked. -/
def seed (st : TestDb) (body : Seeder → Except String Unit) (seeders : List Seeder) :
    List String × Option SeedErr :=
  match getClient st with
  | Except.error e => ([], some (SeedErr.state e))
  | Except.ok _ =>
    match resolveDependencies seeders with
    | Except.error e => ([], some (SeedErr.resolve e))
    | Except.ok l => runSeeders body l

/-! ### The manager: registry and create -/

/-- `Map.get` on the registry association list. -/
def registryGet (reg : List (String × TestDb)) (id : String) : Option TestDb :=
  (reg.find? (fun p => p.1 == id)).map Prod.snd

/-- `TestDatabaseManager.create`: generate an id and URL, construct the
instance, await its `initialize()` (`initRes` is the adapter outcome:
the propagated error, or success), and only on success `set` it into the
registry and return it.  The second component is the registry after the
call. -/
def managerCreate (reg : List (String × TestDb)) (id : String)
    (initRes : Except String Unit) : Except String TestDb × List (String × TestDb) :=
  match initRes with
  | Except.error e => (Except.error e, reg)
  | Except.ok _ => (Except.ok ⟨true, true⟩, (id, (⟨true, true⟩ : TestDb)) :: reg)

/-! ### Identity generation per backend manager -/

/-- `TestDatabaseManager.generateId` (Prisma variant):
`` `test-db-${Date.now()}-${random}` `` — no backend prefix. -/
def prismaGenerateId (now : Nat) (rand : String) : String :=
  "test-db-" ++ toString now ++ "-" ++ rand

/-- `MongooseTestDatabaseManager.generateId`:
`` `mongoose-test-db-${Date.now()}-${random}` ``. -/
def mongooseGenerateId (now : Nat) (rand : String) : String :=
  "mongoose-test-db-" ++ toString now ++ "-" ++ rand

/-- `TypeORMTestDatabaseManager.generateId`:
`` `typeorm-test-db-${Date.now()}-${random}` ``. -/
def typeormGenerateId (now : Nat) (rand : String) : String :=
  "typeorm-test-db-" ++ toString now ++ "-" ++ rand

/-- The id shape stated by the spec: a backend tag followed by
`-test-db-`, a timestamp, `-`, and a random suffix. -/
def HasBackendIdForm (backend id : String) : Prop :=
  ∃ (t : Nat) (r : String), id = backend ++ "-test-db-" ++ toString t ++ "-" ++ r

/-- Boolean substring test (JavaScript `String.prototype.includes`). -/
def strContains (s sub : String) : Bool :=
  s.toList.tails.any (fun t => sub.toList.isPrefixOf t)

/-! ### Adapter cleanup models

The external database is modeled as the list of its user tables (name
and row count) plus the foreign-key enforcement flag; `delOk` models
whether the backend accepts the `DELETE FROM` statement for a given
table (a failing table throws). -/

structure Table where
  name : String
  rows : Nat
deriving Repr, DecidableEq

structure SqliteDb where
  fkEnabled : Bool
  tables : List Table
deriving Repr, DecidableEq

/-- Cleanup errors: the `ConfigurationError` from
`ErrorHandler.invalidCleanupStrategy`, and the wrapped error thrown when
deleting the rows of a table fails. -/
inductive CleanupErr where
  | invalidStrategy (strategy : String)
  | truncateFailed (table : String)
deriving Repr, DecidableEq

/-- `PrismaAdapter`: the Prisma client handle plus the database state. -/
structure PrismaAdapter where
  clientSet : Bool
  db : SqliteDb
deriving Repr, DecidableEq

/-- The `for (const table of tables)` DELETE loop of
`PrismaAdapter.truncateAllTables`: zero each table's rows until a DELETE
fails; a failure stops the loop, leaving the remaining tables (and the
failed one) untouched. -/
def deleteTablesLoop (delOk : String → Bool) : List Table → Option String × List Table
  | [] => (none, [])
  | t :: ts =>
    if delOk t.name then
      let r := deleteTablesLoop delOk ts
      (r.1, { t with rows := 0 } :: r.2)
    else (some t.name, t :: ts)

/-- `PrismaAdapter.truncateAllTables`: list the user tables, run
`PRAGMA foreign_keys = OFF`, DELETE each table, then
`PRAGMA foreign_keys = ON`.  The PRAGMA ON statement is only reached
when every DELETE succeeded: a thrown DELETE error propagates through
the `catch` (which rethrows) without re-enabling the constraints. -/
def truncateAllTables (delOk : String → Bool) (db : SqliteDb) :
    Option CleanupErr × SqliteDb :=
  match deleteTablesLoop delOk db.tables with
  | (some t, ts) => (some (CleanupErr.truncateFailed t), { fkEnabled := false, tables := ts })
  | (none, ts) => (none, { fkEnabled := true, tables := ts })

/-- `PrismaAdapter.reset` as invoked by the `recreate` strategy: the
backing file is removed and the schema re-applied, leaving every table
empty. -/
def prismaReset (db : SqliteDb) : SqliteDb :=
  { fkEnabled := db.fkEnabled, tables := db.tables.map (fun t => { t with rows := 0 }) }

/-- `PrismaAdapter.cleanup`: no-op when the client was never set (or was
nulled by `close()`); `transaction` is a no-op; `truncate` and
`recreate` dispatch as in the source; any other strategy string throws
the `ConfigurationError` before touching the database. -/
def PrismaAdapter.cleanup (delOk : String → Bool) (strategy : String)
    (ad : PrismaAdapter) : Option CleanupErr × PrismaAdapter :=
  if !ad.clientSet then (none, ad)
  else if strategy = "transaction" then (none, ad)
  else if strategy = "truncate" then
    match truncateAllTables delOk ad.db with
    | (e, db2) => (e, { ad with db := db2 })
  else if strategy = "recreate" then (none, { ad with db := prismaReset ad.db })
  else (some (CleanupErr.invalidStrategy strategy), ad)

/-- `PrismaAdapter.close`: `$disconnect` and null the client. -/
def PrismaAdapter.close (ad : PrismaAdapter) : PrismaAdapter :=
  { ad with clientSet := false }

/-- `TypeORMAdapter`: DataSource handle, whether the configured type is
a SQLite flavor (the PRAGMA toggling is conditional on it), and the
database state. -/
structure TypeOrmAdapter where
  dataSourceSet : Bool
  sqliteType : Bool
  db : SqliteDb
deriving Repr, DecidableEq

/-- `tableName.includes('migration') || tableName.includes('typeorm')`:
tables skipped by the TypeORM truncation loop. -/
def typeormSkipTable (n : String) : Bool :=
  strContains n "migration" || strContains n "typeorm"

/-- The TypeORM DELETE loop: skip migration/typeorm tables, zero the
rest, stopping at the first failing DELETE. -/
def typeormDeleteLoop (delOk : String → Bool) : List Table → Option String × List Table
  | [] => (none, [])
  | t :: ts =>
    if typeormSkipTable t.name then
      let r := typeormDeleteLoop delOk ts
      (r.1, t :: r.2)
    else if delOk t.name then
      let r := typeormDeleteLoop delOk ts
      (r.1, { t with rows := 0 } :: r.2)
    else (some t.name, t :: ts)

/-- `TypeORMAdapter.truncateAllTables`: early return when there are no
tables; for SQLite flavors `PRAGMA foreign_keys = OFF` before the loop
and `PRAGMA foreign_keys = ON` after it — the ON statement is only
reached when every DELETE succeeded (the `finally` only releases the
query runner). -/
def typeormTruncateAllTables (delOk : String → Bool) (sqlite : Bool) (db : SqliteDb) :
    Option CleanupErr × SqliteDb :=
  if db.tables.isEmpty then (none, db)
  else
    match typeormDeleteLoop delOk db.tables with
    | (some t, ts) =>
      (some (CleanupErr.truncateFailed t),
        { fkEnabled := if sqlite then false else db.fkEnabled, tables := ts })
    | (none, ts) =>
      (none, { fkEnabled := if sqlite then true else db.fkEnabled, tables := ts })

/-- `TypeORMAdapter.cleanup`: same dispatch shape as the Prisma adapter. -/
def TypeOrmAdapter.cleanup (delOk : String → Bool) (strategy : String)
    (ad : TypeOrmAdapter) : Option CleanupErr × TypeOrmAdapter :=
  if !ad.dataSourceSet then (none, ad)
  else if strategy = "transaction" then (none, ad)
  else if strategy = "truncate" then
    match typeormTruncateAllTables delOk ad.sqliteType ad.db with
    | (e, db2) => (e, { ad with db := db2 })
  else if strategy = "recreate" then
    (none, { ad with
      db := { fkEnabled := ad.db.fkEnabled,
              tables := ad.db.tables.map (fun t => { t with rows := 0 }) } })
  else (some (CleanupErr.invalidStrategy strategy), ad)

/-- `TypeORMAdapter.close`. -/
def TypeOrmAdapter.close (ad : TypeOrmAdapter) : TypeOrmAdapter :=
  { ad with dataSourceSet := false }

/-- `MongooseAdapter`: connection handle plus the collections of the
database (name and document count). -/
structure MongooseAdapter where
  connectionSet : Bool
  collections : List Table
deriving Repr, DecidableEq

/-- `MongooseAdapter.truncateAllCollections`: `deleteMany({})` on every
collection except `system.*` ones (per-collection failures are logged
and swallowed, so the pass always completes). -/
def truncateAllCollections (cols : List Table) : List Table :=
  cols.map (fun c => if c.name.startsWith "system." then c else { c with rows := 0 })

/-- `MongooseAdapter.cleanup`: no-op when the connection is null; the
`transaction` strategy is NOT a no-op — it logs and falls back to
truncation; `recreate` drops the database. -/
def MongooseAdapter.cleanup (strategy : String) (ad : MongooseAdapter) :
    Option CleanupErr × MongooseAdapter :=
  if !ad.connectionSet then (none, ad)
  else if strategy = "transaction" then
    (none, { ad with collections := truncateAllCollections ad.collections })
  else if strategy = "truncate" then
    (none, { ad with collections := truncateAllCollections ad.collections })
  else if strategy = "recreate" then
    (none, { ad with collections := [] })
  else (some (CleanupErr.invalidStrategy strategy), ad)

/-- `MongooseAdapter.close`. -/
def MongooseAdapter.close (ad : MongooseAdapter) : MongooseAdapter :=
  { ad with connectionSet := false }

/-! ### Error rendering for the resolution errors -/

/-- The messages of the errors thrown by the Prisma-variant
`resolveDependencies` (`core/test-database-manager`). -/
def prismaResolveMessage : ResolveError → String
  | ResolveError.circular n => "Circular dependency detected in seeders: " ++ n
  | ResolveError.notFound n => "Seeder not found: " ++ n
  | ResolveError.fuelExhausted => "unreachable"

/-- The payload of `ErrorHandler.seederDependencyError(seederName,
missingDep)`: the arguments and the first line of the message built by
`createHelpfulError`. -/
structure SeedingErrorPayload where
  seederName : String
  missingDep : String
  message : String
deriving Repr, DecidableEq

def seederDependencyError (seederName missingDep : String) : SeedingErrorPayload :=
  { seederName := seederName, missingDep := missingDep,
    message := "Seeder \x27" ++ seederName ++ "\x27 depends on \x27" ++ missingDep ++
      "\x27 which was not found" }

/-- How the mongoose/typeorm variants of `resolveDependencies` render
their thrown errors: the circular throw passes the seeder name and the
literal text `circular dependency detected`; the not-found throw passes
the literal `unknown` as the dependent and the missing name. -/
def mongooseResolveError : ResolveError → SeedingErrorPayload
  | ResolveError.circular n => seederDependencyError n "circular dependency detected"
  | ResolveError.notFound n => seederDependencyError "unknown" n
  | ResolveError.fuelExhausted => seederDependencyError "unknown" "unreachable"

/-! ### Basic facts about the resolution engine -/

theorem contains_true {l : List String} {n : String} (h : l.contains n = true) : n ∈ l := by
  simpa using h

theorem contains_false {l : List String} {n : String} (h : ¬ l.contains n = true) : n ∉ l :=
  fun hm => h (by simpa using hm)

theorem visitStep_refl (st : RState) : VisitStep st st :=
  ⟨rfl, ⟨[], by simp⟩, fun _ hy => hy, fun _ hy => Or.inl hy⟩

theorem visitStep_trans {a b c : RState} (h1 : VisitStep a b) (h2 : VisitStep b c) :
    VisitStep a c := by
  obtain ⟨v1, ⟨e1, r1⟩, m1, n1⟩ := h1
  obtain ⟨v2, ⟨e2, r2⟩, m2, n2⟩ := h2
  refine ⟨v2.trans v1, ⟨e1 ++ e2, by rw [r2, r1, List.append_assoc]⟩,
    fun y hy => m2 y (m1 y hy), fun y hy => ?_⟩
  rcases n2 y hy with hb | hb
  · exact n1 y hb
  · exact Or.inr (v1 ▸ hb)

/-- A property transported along successful steps of the visitor is
transported along a successful `seqVisit`. -/
theorem seqVisit_ok_rel {f : String → RState → Except ResolveError RState}
    (P : RState → RState → Prop)
    (hrefl : ∀ st, P st st)
    (htrans : ∀ {a b c}, P a b → P b c → P a c)
    (hf : ∀ x st st', f x st = Except.ok st' → P st st') :
    ∀ {ds : List String} {st st' : RState}, seqVisit f ds st = Except.ok st' → P st st' := by
  intro ds
  induction ds with
  | nil => intro st st' h; simp only [seqVisit] at h; cases h; exact hrefl _
  | cons d ds ih =>
    intro st st' h
    simp only [seqVisit] at h
    cases hfd : f d st with
    | error e => rw [hfd] at h; cases h
    | ok st1 => rw [hfd] at h; exact htrans (hf d st st1 hfd) (ih h)

/-- A thrown error inside `seqVisit` originates from a call of the
visitor on one of the listed names, from a state reachable by successful
earlier calls (so any property preserved by successful calls holds). -/
theorem seqVisit_error_inv {f : String → RState → Except ResolveError RState}
    (Q : RState → Prop)
    (hpres : ∀ x st st', Q st → f x st = Except.ok st' → Q st') :
    ∀ {ds : List String} {st : RState} {e : ResolveError}, Q st →
      seqVisit f ds st = Except.error e →
      ∃ x st0, x ∈ ds ∧ Q st0 ∧ f x st0 = Except.error e := by
  intro ds
  induction ds with
  | nil => intro st e _ h; simp only [seqVisit] at h; cases h
  | cons d ds ih =>
    intro st e hQ h
    simp only [seqVisit] at h
    cases hfd : f d st with
    | error e' =>
      rw [hfd] at h; cases h
      exact ⟨d, st, List.mem_cons_self d ds, hQ, hfd⟩
    | ok st1 =>
      rw [hfd] at h
      obtain ⟨x, st0, hx, hQ0, hfe⟩ := ih (hpres d st st1 hQ hfd) h
      exact ⟨x, st0, List.mem_cons_of_mem d hx, hQ0, hfe⟩

/-- After a successful `seqVisit`, every listed name is in the visited set. -/
theorem seqVisit_ok_mem {f : String → RState → Except ResolveError RState}
    (hmem : ∀ x st st', f x st = Except.ok st' → x ∈ st'.visited)
    (hmono : ∀ x st st', f x st = Except.ok st' → ∀ y ∈ st.visited, y ∈ st'.visited) :
    ∀ {ds : List String} {st st' : RState}, seqVisit f ds st = Except.ok st' →
      ∀ d ∈ ds, d ∈ st'.visited := by
  intro ds
  induction ds with
  | nil => intro st st' _ d hd; cases hd
  | cons d0 ds ih =>
    intro st st' h d hd
    simp only [seqVisit] at h
    cases hfd : f d0 st with
    | error e => rw [hfd] at h; cases h
    | ok st1 =>
      rw [hfd] at h
      rcases List.mem_cons.mp hd with rfl | hd'
      · have h1 : d ∈ st1.visited := hmem d st st1 hfd
        have : ∀ y ∈ st1.visited, y ∈ st'.visited :=
          seqVisit_ok_rel (P := fun a b => ∀ y ∈ a.visited, y ∈ b.visited)
            (fun _ _ hy => hy) (fun hab hbc y hy => hbc y (hab y hy)) hmono h
        exact this d h1
      · exact ih h d hd'

/-- If every listed name can be visited successfully from any state
satisfying an invariant preserved by successful visits, `seqVisit`
succeeds. -/
theorem seqVisit_ok_total {f : String → RState → Except ResolveError RState}
    (Q : RState → Prop)
    (hpres : ∀ x st st', Q st → f x st = Except.ok st' → Q st') :
    ∀ {ds : List String}, (∀ x ∈ ds, ∀ st, Q st → ∃ st', f x st = Except.ok st') →
      ∀ {st : RState}, Q st → ∃ st', seqVisit f ds st = Except.ok st' := by
  intro ds
  induction ds with
  | nil => intro _ st _; exact ⟨st, rfl⟩
  | cons d ds ih =>
    intro hok st hQ
    obtain ⟨st1, h1⟩ := hok d (List.mem_cons_self d ds) st hQ
    obtain ⟨st', h'⟩ := ih (fun x hx => hok x (List.mem_cons_of_mem d hx)) (hpres d st st1 hQ h1)
    exact ⟨st', by simp only [seqVisit]; rw [h1]; exact h'⟩

/-- Main single-call specification: a successful `visit` performs a
`VisitStep` and leaves the visited name in the visited set. -/
theorem visit_ok_spec (m : String → Option Seeder) :
    ∀ fuel n st st', visit m fuel n st = Except.ok st' →
      VisitStep st st' ∧ n ∈ st'.visited := by
  intro fuel
  induction fuel with
  | zero => intro n st st' h; simp only [visit] at h; cases h
  | succ fuel ih =>
    intro n st st' h
    simp only [visit] at h
    by_cases h1 : st.visited.contains n
    · rw [if_pos h1] at h; cases h
      exact ⟨visitStep_refl st, contains_true h1⟩
    · rw [if_neg h1] at h
      by_cases h2 : st.visiting.contains n
      · rw [if_pos h2] at h; cases h
      · rw [if_neg h2] at h
        cases hmn : m n with
        | none => rw [hmn] at h; cases h
        | some s =>
          rw [hmn] at h
          dsimp only at h
          cases hseq : seqVisit (visit m fuel) s.dependencies
              { resolved := st.resolved, visiting := n :: st.visiting,
                visited := st.visited } with
          | error e => rw [hseq] at h; cases h
          | ok st2 =>
            rw [hseq] at h; cases h
            have hstep : VisitStep { st with visiting := n :: st.visiting } st2 :=
              seqVisit_ok_rel (P := VisitStep) visitStep_refl visitStep_trans
                (fun x a b hb => (ih x a b hb).1) hseq
            obtain ⟨hv, ⟨ext, hr⟩, hmo, hnew⟩ := hstep
            refine ⟨⟨?_, ⟨ext ++ [s], ?_⟩, ?_, ?_⟩, List.mem_cons_self n _⟩
            · show st2.visiting.erase n = st.visiting
              rw [hv]; exact List.erase_cons_head n st.visiting
            · show st2.resolved ++ [s] = st.resolved ++ (ext ++ [s])
              rw [hr]; simp [List.append_assoc]
            · intro y hy
              exact List.mem_cons_of_mem n (hmo y hy)
            · intro y hy
              rcases List.mem_cons.mp hy with rfl | hy'
              · exact Or.inr (contains_false h2)
              · rcases hnew y hy' with hb | hb
                · exact Or.inl hb
                · exact Or.inr fun hc => hb (List.mem_cons_of_mem n hc)

/-! ### State invariant of the resolution: visited names, map
consistency, and topological order of the accumulated output -/

theorem topoOrdered_nil : TopoOrdered [] := by
  intro p s suffix h _ _
  exact absurd h (by simp)

theorem topoOrdered_snoc {l : List Seeder} {s : Seeder} (hT : TopoOrdered l)
    (hdeps : ∀ d ∈ s.dependencies, d ∈ l.map Seeder.name) :
    TopoOrdered (l ++ [s]) := by
  intro p t suffix heq d hd
  rcases List.eq_nil_or_concat suffix with rfl | ⟨L, b, rfl⟩
  · obtain ⟨hp, hs⟩ := List.append_inj' heq (by simp)
    injection hs with hst _
    subst hst
    exact hp ▸ hdeps d hd
  · rw [List.concat_eq_append] at heq
    have heq2 : l ++ [s] = (p ++ t :: L) ++ [b] := by
      rw [heq]; simp [List.append_assoc]
    obtain ⟨hl, _⟩ := List.append_inj' heq2 (by simp)
    exact hT p t L hl d hd

theorem stInv_initial (m : String → Option Seeder) : StInv m initialRState :=
  ⟨rfl, by simp [initialRState], by simp [initialRState], topoOrdered_nil⟩

theorem visit_ok_inv (m : String → Option Seeder)
    (hm : ∀ x s, m x = some s → s.name = x) :
    ∀ fuel n st st', visit m fuel n st = Except.ok st' → StInv m st → StInv m st' := by
  intro fuel
  induction fuel with
  | zero => intro n st st' h _; simp only [visit] at h; cases h
  | succ fuel ih =>
    intro n st st' h hinv
    simp only [visit] at h
    by_cases h1 : st.visited.contains n
    · rw [if_pos h1] at h; cases h; exact hinv
    · rw [if_neg h1] at h
      by_cases h2 : st.visiting.contains n
      · rw [if_pos h2] at h; cases h
      · rw [if_neg h2] at h
        cases hmn : m n with
        | none => rw [hmn] at h; cases h
        | some s =>
          rw [hmn] at h
          dsimp only at h
          cases hseq : seqVisit (visit m fuel) s.dependencies
              { resolved := st.resolved, visiting := n :: st.visiting,
                visited := st.visited } with
          | error e => rw [hseq] at h; cases h
          | ok st2 =>
            rw [hseq] at h; cases h
            have hinv2 : StInv m st2 :=
              seqVisit_ok_rel (P := fun a b => StInv m a → StInv m b)
                (fun _ hx => hx) (fun hab hbc hx => hbc (hab hx))
                (fun x a b hb hx => ih x a b hb hx) hseq hinv
            have hstep : VisitStep
                { resolved := st.resolved, visiting := n :: st.visiting,
                  visited := st.visited } st2 :=
              seqVisit_ok_rel (P := VisitStep) visitStep_refl visitStep_trans
                (fun x a b hb => (visit_ok_spec m fuel x a b hb).1) hseq
            have hdeps2 : ∀ d ∈ s.dependencies, d ∈ st2.visited :=
              seqVisit_ok_mem (fun x a b hb => (visit_ok_spec m fuel x a b hb).2)
                (fun x a b hb => (visit_ok_spec m fuel x a b hb).1.2.2.1) hseq
            obtain ⟨hA2, hC2, hD2, hT2⟩ := hinv2
            have hsname : s.name = n := hm n s hmn
            have hnotvis2 : n ∉ st2.visited := by
              intro hc
              rcases hstep.2.2.2 n hc with hb | hb
              · exact contains_false h1 hb
              · exact hb (List.mem_cons_self n st.visiting)
            refine ⟨?_, ?_, ?_, ?_⟩
            · show n :: st2.visited = ((st2.resolved ++ [s]).map Seeder.name).reverse
              rw [hA2, List.map_append, List.reverse_append]
              simp [hsname]
            · intro t ht
              rcases List.mem_append.mp ht with ht' | ht'
              · exact hC2 t ht'
              · have hts : t = s := by simpa using ht'
                subst hts
                rw [hsname]; exact hmn
            · exact List.nodup_cons.mpr ⟨hnotvis2, hD2⟩
            · refine topoOrdered_snoc hT2 ?_
              intro d hd
              have hdv : d ∈ st2.visited := hdeps2 d hd
              rw [hA2] at hdv
              exact List.mem_reverse.mp hdv

/-! ### Classification of the errors `visit` can throw -/

/-- A not-found error names a name absent from the map, and that name is
either the originally visited name or a declared dependency of some
mapped seeder. -/
theorem visit_err_notFound (m : String → Option Seeder) :
    ∀ fuel n st d, visit m fuel n st = Except.error (ResolveError.notFound d) →
      m d = none ∧ (d = n ∨ ∃ x s, m x = some s ∧ d ∈ s.dependencies) := by
  intro fuel
  induction fuel with
  | zero => intro n st d h; simp only [visit] at h; cases h
  | succ fuel ih =>
    intro n st d h
    simp only [visit] at h
    by_cases h1 : st.visited.contains n
    · rw [if_pos h1] at h; cases h
    · rw [if_neg h1] at h
      by_cases h2 : st.visiting.contains n
      · rw [if_pos h2] at h; cases h
      · rw [if_neg h2] at h
        cases hmn : m n with
        | none => rw [hmn] at h; cases h; exact ⟨hmn, Or.inl rfl⟩
        | some s =>
          rw [hmn] at h
          dsimp only at h
          cases hseq : seqVisit (visit m fuel) s.dependencies
              { resolved := st.resolved, visiting := n :: st.visiting,
                visited := st.visited } with
          | error e =>
            rw [hseq] at h; cases h
            obtain ⟨x, st0, hx, _, hfe⟩ :=
              seqVisit_error_inv (Q := fun _ => True) (fun _ _ _ _ _ => trivial)
                trivial hseq
            obtain ⟨hnone, hor⟩ := ih x st0 d hfe
            refine ⟨hnone, Or.inr ?_⟩
            rcases hor with rfl | ⟨y, t, hy, hd⟩
            · exact ⟨n, s, hmn, hx⟩
            · exact ⟨y, t, hy, hd⟩
          | ok st2 => rw [hseq] at h; cases h

/-- With fuel at least `dom.length + 1 - visiting.length`, and `visiting`
a duplicate-free list of mapped names, `visit` never runs out of fuel:
the active path cannot be longer than the number of mapped names. -/
theorem visit_no_fuelErr (m : String → Option Seeder) (dom : List String)
    (hdom : ∀ x s, m x = some s → x ∈ dom) :
    ∀ fuel n st, st.visiting.Nodup → (∀ x ∈ st.visiting, x ∈ dom) →
      dom.length + 1 ≤ fuel + st.visiting.length →
      visit m fuel n st ≠ Except.error ResolveError.fuelExhausted := by
  intro fuel
  induction fuel with
  | zero =>
    intro n st hnd hsub hbud h
    have hle : st.visiting.length ≤ dom.length := by
      calc st.visiting.length = st.visiting.toFinset.card :=
            (List.toFinset_card_of_nodup hnd).symm
        _ ≤ dom.toFinset.card := by
            refine Finset.card_le_card ?_
            intro x hx
            rw [List.mem_toFinset] at hx ⊢
            exact hsub x hx
        _ ≤ dom.length := dom.toFinset_card_le
    omega
  | succ fuel ih =>
    intro n st hnd hsub hbud h
    simp only [visit] at h
    by_cases h1 : st.visited.contains n
    · rw [if_pos h1] at h; cases h
    · rw [if_neg h1] at h
      by_cases h2 : st.visiting.contains n
      · rw [if_pos h2] at h; cases h
      · rw [if_neg h2] at h
        cases hmn : m n with
        | none => rw [hmn] at h; cases h
        | some s =>
          rw [hmn] at h
          dsimp only at h
          cases hseq : seqVisit (visit m fuel) s.dependencies
              { resolved := st.resolved, visiting := n :: st.visiting,
                visited := st.visited } with
          | error e =>
            rw [hseq] at h; cases h
            obtain ⟨x, st0, hx, hQ0, hfe⟩ :=
              seqVisit_error_inv (Q := fun st0 => st0.visiting = n :: st.visiting)
                (fun x a b hQ hab => ((visit_ok_spec m fuel x a b hab).1.1).trans hQ)
                rfl hseq
            refine ih x st0 ?_ ?_ ?_ hfe
            · rw [hQ0]
              exact List.nodup_cons.mpr ⟨contains_false h2, hnd⟩
            · rw [hQ0]
              intro y hy
              rcases List.mem_cons.mp hy with rfl | hy'
              · exact hdom y s hmn
              · exact hsub y hy'
            · rw [hQ0]
              simp only [List.length_cons]
              omega
          | ok st2 => rw [hseq] at h; cases h

theorem chain_head_le (rank : String → Nat) :
    ∀ l : List String, List.Chain' (fun a b => rank a < rank b) l →
      ∀ h, l.head? = some h → ∀ x ∈ l, rank h ≤ rank x := by
  intro l
  induction l with
  | nil => intro _ h hh; cases hh
  | cons a l ih =>
    intro hch h hh x hx
    cases hh
    rcases List.mem_cons.mp hx with rfl | hx'
    · exact le_refl _
    · rcases List.chain'_cons'.mp hch with ⟨hr, hch'⟩
      cases l with
      | nil => cases hx'
      | cons b l' =>
        have hab : rank a < rank b := hr b rfl
        have hbx : rank b ≤ rank x := ih hch' b rfl x hx'
        omega

/-- Under an acyclicity witness (a rank function decreasing along
dependency edges), and with the active path a rank-increasing chain below
the visited name, `visit` never throws the circular error. -/
theorem visit_no_circErr (m : String → Option Seeder) (rank : String → Nat)
    (hrank : ∀ x s, m x = some s → ∀ d ∈ s.dependencies, rank d < rank x) :
    ∀ fuel n st, List.Chain' (fun a b => rank a < rank b) st.visiting →
      (∀ h, st.visiting.head? = some h → rank n < rank h) →
      ∀ c, visit m fuel n st ≠ Except.error (ResolveError.circular c) := by
  intro fuel
  induction fuel with
  | zero => intro n st _ _ c h; simp only [visit] at h; cases h
  | succ fuel ih =>
    intro n st hch hhd c h
    simp only [visit] at h
    by_cases h1 : st.visited.contains n
    · rw [if_pos h1] at h; cases h
    · rw [if_neg h1] at h
      by_cases h2 : st.visiting.contains n
      · have hn : n ∈ st.visiting := contains_true (by simpa using h2)
        cases hv : st.visiting with
        | nil => rw [hv] at hn; cases hn
        | cons a l =>
          have hlt : rank n < rank a := hhd a (by rw [hv]; rfl)
          have hge : rank a ≤ rank n :=
            chain_head_le rank st.visiting hch a (by rw [hv]; rfl) n hn
          omega
      · rw [if_neg h2] at h
        cases hmn : m n with
        | none => rw [hmn] at h; cases h
        | some s =>
          rw [hmn] at h
          dsimp only at h
          cases hseq : seqVisit (visit m fuel) s.dependencies
              { resolved := st.resolved, visiting := n :: st.visiting,
                visited := st.visited } with
          | error e =>
            rw [hseq] at h; cases h
            obtain ⟨x, st0, hx, hQ0, hfe⟩ :=
              seqVisit_error_inv (Q := fun st0 => st0.visiting = n :: st.visiting)
                (fun x a b hQ hab => ((visit_ok_spec m fuel x a b hab).1.1).trans hQ)
                rfl hseq
            refine absurd hfe (ih x st0 ?_ ?_ c)
            · rw [hQ0]
              exact List.chain'_cons'.mpr ⟨fun hh hhh => hhd hh hhh, hch⟩
            · rw [hQ0]
              intro hh hhh
              injection hhh with hhh'
              subst hhh'
              exact hrank n s hmn x hx
          | ok st2 => rw [hseq] at h; cases h

/-- Totality of `visit`: under the budget, acyclicity and
all-dependencies-present hypotheses, a visit of a mapped name succeeds. -/
theorem visit_ok_total (m : String → Option Seeder) (dom : List String) (rank : String → Nat)
    (hdom : ∀ x s, m x = some s → x ∈ dom)
    (hrank : ∀ x s, m x = some s → ∀ d ∈ s.dependencies, rank d < rank x)
    (hpresent : ∀ x s, m x = some s → ∀ d ∈ s.dependencies, (m d).isSome) :
    ∀ fuel n st, (m n).isSome →
      st.visiting.Nodup → (∀ x ∈ st.visiting, x ∈ dom) →
      dom.length + 1 ≤ fuel + st.visiting.length →
      List.Chain' (fun a b => rank a < rank b) st.visiting →
      (∀ h, st.visiting.head? = some h → rank n < rank h) →
      ∃ st', visit m fuel n st = Except.ok st' := by
  intro fuel n st hn hnd hsub hbud hch hhd
  cases hres : visit m fuel n st with
  | ok st' => exact ⟨st', rfl⟩
  | error e =>
    exfalso
    cases e with
    | fuelExhausted => exact visit_no_fuelErr m dom hdom fuel n st hnd hsub hbud hres
    | circular c => exact visit_no_circErr m rank hrank fuel n st hch hhd c hres
    | notFound d =>
      obtain ⟨hdnone, hor⟩ := visit_err_notFound m fuel n st d hres
      rcases hor with rfl | ⟨x, s, hx, hd⟩
      · rw [hdnone] at hn; simp at hn
      · have hds := hpresent x s hx d hd
        rw [hdnone] at hds; simp at hds

/-! ### Facts about the name-to-seeder map -/

theorem seederMap_name {seeders : List Seeder} {n : String} {s : Seeder}
    (h : seederMap seeders n = some s) : s.name = n := by
  have hfind := List.find?_some h
  simpa using hfind

theorem seederMap_mem {seeders : List Seeder} {n : String} {s : Seeder}
    (h : seederMap seeders n = some s) : s ∈ seeders := by
  have hfind := List.mem_of_find?_eq_some h
  simpa using hfind

theorem seederMap_dom {seeders : List Seeder} {n : String} {s : Seeder}
    (h : seederMap seeders n = some s) : n ∈ seeders.map Seeder.name := by
  rw [← seederMap_name h]
  exact List.mem_map_of_mem Seeder.name (seederMap_mem h)

theorem seederMap_isSome_of_name {seeders : List Seeder} {n : String}
    (h : n ∈ seeders.map Seeder.name) : (seederMap seeders n).isSome := by
  rw [seederMap, List.find?_isSome]
  obtain ⟨s, hs, hn⟩ := List.mem_map.mp h
  exact ⟨s, by simpa using hs, by simp [hn]⟩

/-- With duplicate-free names, looking up a member's own name returns
that member. -/
theorem seederMap_self {seeders : List Seeder}
    (hnd : (seeders.map Seeder.name).Nodup) {s : Seeder} (h : s ∈ seeders) :
    seederMap seeders s.name = some s := by
  cases hfind : seederMap seeders s.name with
  | none =>
    have hsome := seederMap_isSome_of_name (List.mem_map_of_mem Seeder.name h)
    rw [hfind] at hsome; simp at hsome
  | some t =>
    have ht : t ∈ seeders := seederMap_mem hfind
    have hname : t.name = s.name := seederMap_name hfind
    have hts : t = s := List.inj_on_of_nodup_map hnd ht h hname
    rw [hts]

/-! ### Resolution-level consequences -/

/-- A successful resolution yields a topologically ordered output whose
elements are map images of their own names, with duplicate-free names,
covering every input seeder's name. -/
theorem resolve_ok_spec {seeders l : List Seeder}
    (h : resolveDependencies seeders = Except.ok l) :
    TopoOrdered l ∧ (∀ s ∈ l, seederMap seeders s.name = some s) ∧
      (l.map Seeder.name).Nodup ∧ (∀ s ∈ seeders, s.name ∈ l.map Seeder.name) := by
  unfold resolveDependencies at h
  cases hseq : seqVisit (visit (seederMap seeders) (seeders.length + 1))
      (seeders.map Seeder.name) initialRState with
  | error e => rw [hseq] at h; cases h
  | ok stF =>
    rw [hseq] at h; cases h
    have hinv : StInv (seederMap seeders) stF :=
      seqVisit_ok_rel (P := fun a b => StInv (seederMap seeders) a → StInv (seederMap seeders) b)
        (fun _ hx => hx) (fun hab hbc hx => hbc (hab hx))
        (fun x a b hb hx =>
          visit_ok_inv (seederMap seeders) (fun x s hx' => seederMap_name hx')
            (seeders.length + 1) x a b hb hx)
        hseq (stInv_initial (seederMap seeders))
    obtain ⟨hA, hC, hD, hT⟩ := hinv
    have hmem : ∀ d ∈ seeders.map Seeder.name, d ∈ stF.visited :=
      seqVisit_ok_mem
        (fun x a b hb => (visit_ok_spec (seederMap seeders) _ x a b hb).2)
        (fun x a b hb => (visit_ok_spec (seederMap seeders) _ x a b hb).1.2.2.1) hseq
    refine ⟨hT, hC, ?_, ?_⟩
    · have hrev : ((stF.resolved.map Seeder.name).reverse).Nodup := hA ▸ hD
      exact List.nodup_reverse.mp hrev
    · intro s hs
      have hv : s.name ∈ stF.visited := hmem s.name (List.mem_map_of_mem Seeder.name hs)
      rw [hA] at hv
      exact List.mem_reverse.mp hv

/-- Totality of resolution: with an acyclicity rank witness and all
declared dependencies present in the map, `resolveDependencies` succeeds. -/
theorem resolve_total {seeders : List Seeder} (rank : String → Nat)
    (hrank : ∀ x s, seederMap seeders x = some s →
      ∀ d ∈ s.dependencies, rank d < rank x)
    (hpresent : ∀ x s, seederMap seeders x = some s →
      ∀ d ∈ s.dependencies, (seederMap seeders d).isSome) :
    ∃ l, resolveDependencies seeders = Except.ok l := by
  have hok : ∀ x ∈ seeders.map Seeder.name, ∀ st : RState, st.visiting = [] →
      ∃ st', visit (seederMap seeders) (seeders.length + 1) x st = Except.ok st' := by
    intro x hx st hQ
    refine visit_ok_total (seederMap seeders) (seeders.map Seeder.name) rank
      (fun x s hs => seederMap_dom hs) hrank hpresent
      (seeders.length + 1) x st (seederMap_isSome_of_name hx) ?_ ?_ ?_ ?_ ?_
    · rw [hQ]; exact List.nodup_nil
    · rw [hQ]; intro y hy; cases hy
    · rw [hQ]; simp
    · rw [hQ]; trivial
    · rw [hQ]; intro h hh; cases hh
  obtain ⟨stF, hseq⟩ :=
    seqVisit_ok_total (Q := fun st => st.visiting = [])
      (fun x a b hQ hab => ((visit_ok_spec (seederMap seeders) _ x a b hab).1.1).trans hQ)
      hok (show initialRState.visiting = [] from rfl)
  refine ⟨stF.resolved, ?_⟩
  unfold resolveDependencies
  rw [hseq]

/-- Any transitive chain starts with a direct edge. -/
theorem transGen_head_edge {α : Type} {r : α → α → Prop} {a b : α}
    (h : Relation.TransGen r a b) : ∃ c, r a c := by
  induction h using Relation.TransGen.head_induction_on with
  | base hh => exact ⟨_, hh⟩
  | ih hh _ _ => exact ⟨_, hh⟩

/-- From topological ordering of direct dependencies, every transitive
dependency of an element also appears among the names before it. -/
theorem topoOrdered_transGen {m : String → Option Seeder} {l : List Seeder}
    (hT : TopoOrdered l) (hC : ∀ s ∈ l, m s.name = some s) :
    ∀ x d, Relation.TransGen (depEdge m) x d →
      ∀ p s suffix, l = p ++ s :: suffix → s.name = x → d ∈ p.map Seeder.name := by
  intro x d htg
  induction htg using Relation.TransGen.head_induction_on with
  | base hedge =>
    intro p s suffix hsplit hx
    rw [← hx] at hedge
    obtain ⟨s', hms', hd'⟩ := hedge
    have hsl : s ∈ l := by
      rw [hsplit]; exact List.mem_append_right p (List.mem_cons_self s suffix)
    have hms : m s.name = some s := hC s hsl
    rw [hms] at hms'
    cases hms'
    exact hT p s suffix hsplit d hd'
  | ih hedge htg' ihy =>
    intro p s suffix hsplit hx
    rw [← hx] at hedge
    obtain ⟨s', hms', hy'⟩ := hedge
    have hsl : s ∈ l := by
      rw [hsplit]; exact List.mem_append_right p (List.mem_cons_self s suffix)
    have hms : m s.name = some s := hC s hsl
    rw [hms] at hms'
    cases hms'
    have hyp : _ ∈ p.map Seeder.name := hT p s suffix hsplit _ hy'
    obtain ⟨t, htp, hty⟩ := List.mem_map.mp hyp
    obtain ⟨p1, p2, hp⟩ := List.append_of_mem htp
    have hsplit' : l = p1 ++ t :: (p2 ++ s :: suffix) := by
      rw [hsplit, hp]; simp [List.append_assoc]
    have hd1 : d ∈ p1.map Seeder.name := ihy p1 t (p2 ++ s :: suffix) hsplit' hty
    rw [hp, List.map_append]
    exact List.mem_append_left _ hd1

/-- A successful resolution certifies that the dependency graph induced
by the seeder map is acyclic. -/
theorem resolve_ok_acyclic {seeders l : List Seeder}
    (h : resolveDependencies seeders = Except.ok l) :
    ∀ n, ¬ Relation.TransGen (depEdge (seederMap seeders)) n n := by
  obtain ⟨hT, hC, hnd, hcov⟩ := resolve_ok_spec h
  intro n htg
  obtain ⟨x, s, hms, _⟩ := transGen_head_edge htg
  have hnl : n ∈ l.map Seeder.name := by
    rw [← seederMap_name hms]
    exact hcov s (seederMap_mem hms)
  obtain ⟨t, htl, htn⟩ := List.mem_map.mp hnl
  obtain ⟨p, q, hp⟩ := List.append_of_mem htl
  have hd : n ∈ p.map Seeder.name :=
    topoOrdered_transGen hT hC n n htg p t q hp htn
  rw [← htn] at hd
  have hndl : (p.map Seeder.name ++ t.name :: q.map Seeder.name).Nodup := by
    have hmap : l.map Seeder.name = p.map Seeder.name ++ t.name :: q.map Seeder.name := by
      rw [hp]; simp
    rw [← hmap]; exact hnd
  obtain ⟨-, -, hdisj⟩ := List.nodup_append.mp hndl
  exact hdisj hd (List.mem_cons_self t.name (q.map Seeder.name))

/-- A seeder list whose induced dependency graph has a cycle never
resolves successfully. -/
theorem resolve_cycle_err {seeders : List Seeder}
    (hcyc : ∃ n, Relation.TransGen (depEdge (seederMap seeders)) n n) :
    ∃ e, resolveDependencies seeders = Except.error e := by
  cases hres : resolveDependencies seeders with
  | ok l =>
    obtain ⟨n, hn⟩ := hcyc
    exact absurd hn (resolve_ok_acyclic hres n)
  | error e => exact ⟨e, rfl⟩

/-- A not-found resolution error names a name absent from the map, and
that name is either the name of an input seeder or a declared dependency
of a mapped seeder. -/
theorem resolve_err_notFound {seeders : List Seeder} {d : String}
    (h : resolveDependencies seeders = Except.error (ResolveError.notFound d)) :
    seederMap seeders d = none ∧
      (d ∈ seeders.map Seeder.name ∨
        ∃ x s, seederMap seeders x = some s ∧ d ∈ s.dependencies) := by
  unfold resolveDependencies at h
  cases hseq : seqVisit (visit (seederMap seeders) (seeders.length + 1))
      (seeders.map Seeder.name) initialRState with
  | ok stF => rw [hseq] at h; cases h
  | error e =>
    rw [hseq] at h; cases h
    obtain ⟨x, st0, hx, -, hfe⟩ :=
      seqVisit_error_inv (Q := fun _ => True) (fun _ _ _ _ _ => trivial) trivial hseq
    obtain ⟨hnone, hor⟩ := visit_err_notFound (seederMap seeders) _ x st0 d hfe
    refine ⟨hnone, ?_⟩
    rcases hor with rfl | hex
    · exact Or.inl hx
    · exact Or.inr hex

/-- `resolveDependencies` never exhausts its fuel: the embedding artifact
error is unreachable. -/
theorem resolve_no_fuelErr (seeders : List Seeder) :
    resolveDependencies seeders ≠ Except.error ResolveError.fuelExhausted := by
  intro h
  unfold resolveDependencies at h
  cases hseq : seqVisit (visit (seederMap seeders) (seeders.length + 1))
      (seeders.map Seeder.name) initialRState with
  | ok stF => rw [hseq] at h; cases h
  | error e =>
    rw [hseq] at h; cases h
    obtain ⟨x, st0, hx, hQ0, hfe⟩ :=
      seqVisit_error_inv (Q := fun st => st.visiting = [])
        (fun x a b hQ hab => ((visit_ok_spec (seederMap seeders) _ x a b hab).1.1).trans hQ)
        rfl hseq
    refine visit_no_fuelErr (seederMap seeders) (seeders.map Seeder.name)
      (fun x s hs => seederMap_dom hs) _ x st0 ?_ ?_ ?_ hfe
    · rw [hQ0]; exact List.nodup_nil
    · rw [hQ0]; intro y hy; cases hy
    · rw [hQ0]; simp

/-- Under an acyclicity rank witness, resolution never reports a circular
dependency. -/
theorem resolve_no_circErr {seeders : List Seeder} (rank : String → Nat)
    (hrank : ∀ x s, seederMap seeders x = some s →
      ∀ d ∈ s.dependencies, rank d < rank x) :
    ∀ c, resolveDependencies seeders ≠ Except.error (ResolveError.circular c) := by
  intro c h
  unfold resolveDependencies at h
  cases hseq : seqVisit (visit (seederMap seeders) (seeders.length + 1))
      (seeders.map Seeder.name) initialRState with
  | ok stF => rw [hseq] at h; cases h
  | error e =>
    rw [hseq] at h; cases h
    obtain ⟨x, st0, hx, hQ0, hfe⟩ :=
      seqVisit_error_inv (Q := fun st => st.visiting = [])
        (fun x a b hQ hab => ((visit_ok_spec (seederMap seeders) _ x a b hab).1.1).trans hQ)
        rfl hseq
    refine visit_no_circErr (seederMap seeders) rank hrank _ x st0 ?_ ?_ c hfe
    · rw [hQ0]; trivial
    · rw [hQ0]; intro hh hhh; cases hhh

/-! ### Membership consequences of a successful resolution -/

/-- With duplicate-free names, a successful resolution returns exactly
the input seeders (as sets). -/
theorem resolve_ok_mem {seeders l : List Seeder}
    (hnd : (seeders.map Seeder.name).Nodup)
    (h : resolveDependencies seeders = Except.ok l) :
    (∀ s ∈ seeders, s ∈ l) ∧ (∀ s ∈ l, s ∈ seeders) := by
  obtain ⟨hT, hC, hndl, hcov⟩ := resolve_ok_spec h
  constructor
  · intro s hs
    have h1 : s.name ∈ l.map Seeder.name := hcov s hs
    obtain ⟨t, htl, htn⟩ := List.mem_map.mp h1
    have h2 : seederMap seeders t.name = some t := hC t htl
    rw [htn, seederMap_self hnd hs] at h2
    cases h2
    exact htl
  · intro s hs
    exact seederMap_mem (hC s hs)

/-- With duplicate-free names, a successful resolution certifies that
every declared dependency of every input seeder is present in the map. -/
theorem resolve_ok_deps_present {seeders l : List Seeder}
    (hnd : (seeders.map Seeder.name).Nodup)
    (h : resolveDependencies seeders = Except.ok l) :
    ∀ s ∈ seeders, ∀ d ∈ s.dependencies, (seederMap seeders d).isSome := by
  obtain ⟨hT, hC, hndl, hcov⟩ := resolve_ok_spec h
  have hmem := (resolve_ok_mem hnd h).1
  intro s hs d hd
  obtain ⟨p, q, hp⟩ := List.append_of_mem (hmem s hs)
  have hdp : d ∈ p.map Seeder.name := hT p s q hp d hd
  obtain ⟨u, hup, hud⟩ := List.mem_map.mp hdp
  have hul : u ∈ l := by rw [hp]; exact List.mem_append_left _ hup
  have h2 : seederMap seeders u.name = some u := hC u hul
  rw [hud] at h2
  rw [h2]
  rfl

/-! ### Claim C1: topological order of `resolveDependencies` -/

/-- C1 (counterexample to the stability clause): on the input
`[A(deps:[C]), B(deps:[]), C(deps:[])]` resolution returns `[C, A, B]`.
`B` and `C` declare no dependencies at all — there is no dependency
relation between them in either direction (no edge even leaves them) —
yet `B` precedes `C` in the input while `C` precedes `B` in the output:
independent seeders do not keep their relative input order. -/
theorem resolveDependencies_stability_counterexample :
    resolveDependencies [⟨"A", ["C"]⟩, ⟨"B", []⟩, ⟨"C", []⟩] =
      Except.ok [⟨"C", []⟩, ⟨"A", ["C"]⟩, ⟨"B", []⟩] ∧
    (¬ Relation.TransGen
        (depEdge (seederMap [⟨"A", ["C"]⟩, ⟨"B", []⟩, ⟨"C", []⟩])) "B" "C") ∧
    (¬ Relation.TransGen
        (depEdge (seederMap [⟨"A", ["C"]⟩, ⟨"B", []⟩, ⟨"C", []⟩])) "C" "B") := by
  refine ⟨rfl, ?_, ?_⟩
  · intro h
    obtain ⟨c, s, hms, hd⟩ := transGen_head_edge h
    have hs : s = ⟨"B", []⟩ := by
      have : seederMap [(⟨"A", ["C"]⟩ : Seeder), ⟨"B", []⟩, ⟨"C", []⟩] "B" =
          some ⟨"B", []⟩ := rfl
      rw [this] at hms; cases hms; rfl
    rw [hs] at hd
    cases hd
  · intro h
    obtain ⟨c, s, hms, hd⟩ := transGen_head_edge h
    have hs : s = ⟨"C", []⟩ := by
      have : seederMap [(⟨"A", ["C"]⟩ : Seeder), ⟨"B", []⟩, ⟨"C", []⟩] "C" =
          some ⟨"C", []⟩ := rfl
      rw [this] at hms; cases hms; rfl
    rw [hs] at hd
    cases hd

/-- C1 (amended): for every seeder list with duplicate-free names whose
declared dependency names all resolve in the map and whose dependency
graph is acyclic (witnessed by a rank function decreasing along edges),
`resolveDependencies` succeeds, returns exactly the input seeders, and
every seeder appears after all of its transitive dependencies.  (The
original claim's further assertion — that seeders with no dependency
relation between them keep their relative input order — is dropped: it
fails, see the counterexample.) -/
theorem resolveDependencies_topological_order (seeders : List Seeder)
    (hnd : (seeders.map Seeder.name).Nodup)
    (hpres : ∀ s ∈ seeders, ∀ d ∈ s.dependencies, (seederMap seeders d).isSome)
    (hacyc : ∃ rank : String → Nat,
      ∀ s ∈ seeders, ∀ d ∈ s.dependencies, rank d < rank s.name) :
    ∃ l, resolveDependencies seeders = Except.ok l ∧
      (∀ s ∈ seeders, s ∈ l) ∧ (∀ s ∈ l, s ∈ seeders) ∧
      (∀ p s suffix, l = p ++ s :: suffix →
        ∀ d, Relation.TransGen (depEdge (seederMap seeders)) s.name d →
          d ∈ p.map Seeder.name) := by
  obtain ⟨rank, hrank⟩ := hacyc
  have hrank' : ∀ x s, seederMap seeders x = some s →
      ∀ d ∈ s.dependencies, rank d < rank x := by
    intro x s hx d hd
    have hsx : s.name = x := seederMap_name hx
    rw [← hsx]
    exact hrank s (seederMap_mem hx) d hd
  have hpres' : ∀ x s, seederMap seeders x = some s →
      ∀ d ∈ s.dependencies, (seederMap seeders d).isSome := by
    intro x s hx d hd
    exact hpres s (seederMap_mem hx) d hd
  obtain ⟨l, hok⟩ := resolve_total rank hrank' hpres'
  obtain ⟨hT, hC, hndl, hcov⟩ := resolve_ok_spec hok
  obtain ⟨hmem1, hmem2⟩ := resolve_ok_mem hnd hok
  refine ⟨l, hok, hmem1, hmem2, ?_⟩
  intro p s suffix hsplit d htg
  exact topoOrdered_transGen hT hC s.name d htg p s suffix hsplit rfl

/-- C1 witness: the spec's §8 example — A(deps:[]), B(deps:[A]),
C(deps:[A,B]) — satisfies the hypotheses, so resolution succeeds with
every seeder after its transitive dependencies. -/
theorem resolveDependencies_topological_order_witness :
    ∃ l, resolveDependencies [⟨"A", []⟩, ⟨"B", ["A"]⟩, ⟨"C", ["A", "B"]⟩] =
        Except.ok l ∧
      (∀ s ∈ [(⟨"A", []⟩ : Seeder), ⟨"B", ["A"]⟩, ⟨"C", ["A", "B"]⟩], s ∈ l) ∧
      (∀ s ∈ l, s ∈ [(⟨"A", []⟩ : Seeder), ⟨"B", ["A"]⟩, ⟨"C", ["A", "B"]⟩]) ∧
      (∀ p s suffix, l = p ++ s :: suffix →
        ∀ d, Relation.TransGen
            (depEdge (seederMap [⟨"A", []⟩, ⟨"B", ["A"]⟩, ⟨"C", ["A", "B"]⟩]))
            s.name d →
          d ∈ p.map Seeder.name) :=
  resolveDependencies_topological_order
    [⟨"A", []⟩, ⟨"B", ["A"]⟩, ⟨"C", ["A", "B"]⟩]
    (by decide) (by decide)
    ⟨fun n => if n = "C" then 2 else if n = "B" then 1 else 0, by decide⟩

/-! ### Claim C2: cycles fail resolution before any seeder runs -/

/-- C2 (counterexample to the error-kind clause): the list
`[Z(deps:["Ghost"]), X(deps:["Y"]), Y(deps:["X"])]` contains the
dependency cycle X → Y → X, yet `seed` on a ready instance fails with
the missing-dependency error for `Ghost` (encountered first), not a
circular-dependency error.  No seeder body runs, as claimed. -/
theorem seed_cycle_missing_error_counterexample :
    seed ⟨true, true⟩ (fun _ => Except.ok ())
        [⟨"Z", ["Ghost"]⟩, ⟨"X", ["Y"]⟩, ⟨"Y", ["X"]⟩] =
      ([], some (SeedErr.resolve (ResolveError.notFound "Ghost"))) ∧
    Relation.TransGen
      (depEdge (seederMap [⟨"Z", ["Ghost"]⟩, ⟨"X", ["Y"]⟩, ⟨"Y", ["X"]⟩]))
      "X" "X" ∧
    ¬ ∃ n, ResolveError.notFound "Ghost" = ResolveError.circular n := by
  refine ⟨rfl, ?_, fun ⟨n, h⟩ => ResolveError.noConfusion h⟩
  have hxy : depEdge (seederMap [⟨"Z", ["Ghost"]⟩, ⟨"X", ["Y"]⟩, ⟨"Y", ["X"]⟩])
      "X" "Y" := ⟨⟨"X", ["Y"]⟩, rfl, by decide⟩
  have hyx : depEdge (seederMap [⟨"Z", ["Ghost"]⟩, ⟨"X", ["Y"]⟩, ⟨"Y", ["X"]⟩])
      "Y" "X" := ⟨⟨"Y", ["X"]⟩, rfl, by decide⟩
  exact Relation.TransGen.head hxy (Relation.TransGen.single hyx)

/-- C2 (amended): for every seeder list containing a dependency cycle,
`seed` on a ready instance fails during resolution and invokes no
seeder body; when moreover every declared dependency name resolves in
the map, the error is specifically the circular-dependency error.  (As
stated the claim fails: a missing dependency encountered before the
cycle yields the missing-dependency error instead, see the
counterexample.) -/
theorem seed_cycle_no_seeder_runs (st : TestDb)
    (body : Seeder → Except String Unit) (seeders : List Seeder)
    (hready : getClient st = Except.ok ())
    (hcyc : ∃ n, Relation.TransGen (depEdge (seederMap seeders)) n n) :
    ∃ e, seed st body seeders = ([], some (SeedErr.resolve e)) ∧
      ((∀ s ∈ seeders, ∀ d ∈ s.dependencies, (seederMap seeders d).isSome) →
        ∃ c, e = ResolveError.circular c) := by
  obtain ⟨e, herr⟩ := resolve_cycle_err hcyc
  refine ⟨e, ?_, ?_⟩
  · unfold seed
    rw [hready, herr]
  · intro hpres
    cases e with
    | circular c => exact ⟨c, rfl⟩
    | notFound d =>
      exfalso
      obtain ⟨hnone, hor⟩ := resolve_err_notFound herr
      rcases hor with hin | ⟨x, s, hx, hd⟩
      · have := seederMap_isSome_of_name hin
        rw [hnone] at this; simp at this
      · have := hpres s (seederMap_mem hx) d hd
        rw [hnone] at this; simp at this
    | fuelExhausted => exact (resolve_no_fuelErr seeders herr).elim

/-- C2 witness: the two-cycle X(deps:[Y]), Y(deps:[X]) of §8 on a ready
instance: resolution fails with the circular error and no body runs. -/
theorem seed_cycle_no_seeder_runs_witness :
    ∃ e, seed ⟨true, true⟩ (fun _ => Except.ok ()) [⟨"X", ["Y"]⟩, ⟨"Y", ["X"]⟩] =
        ([], some (SeedErr.resolve e)) ∧
      ((∀ s ∈ [(⟨"X", ["Y"]⟩ : Seeder), ⟨"Y", ["X"]⟩], ∀ d ∈ s.dependencies,
          (seederMap [⟨"X", ["Y"]⟩, ⟨"Y", ["X"]⟩] d).isSome) →
        ∃ c, e = ResolveError.circular c) :=
  seed_cycle_no_seeder_runs ⟨true, true⟩ (fun _ => Except.ok ())
    [⟨"X", ["Y"]⟩, ⟨"Y", ["X"]⟩] rfl
    ⟨"X", Relation.TransGen.head
      (show depEdge (seederMap [⟨"X", ["Y"]⟩, ⟨"Y", ["X"]⟩]) "X" "Y" from
        ⟨⟨"X", ["Y"]⟩, rfl, by decide⟩)
      (Relation.TransGen.single
        (show depEdge (seederMap [⟨"X", ["Y"]⟩, ⟨"Y", ["X"]⟩]) "Y" "X" from
          ⟨⟨"Y", ["X"]⟩, rfl, by decide⟩))⟩

/-! ### Claim C3: missing dependencies fail resolution, and how the
error names the parties -/

/-- C3 (counterexample to the naming clause): `Z(deps:["Ghost"])` fails
with the not-found error for `Ghost`; the Prisma-variant message is
`Seeder not found: Ghost`, which does not name the dependent `Z` at
all, and the mongoose/typeorm variants report the dependent as the
literal string `unknown`, not `Z`. -/
theorem missing_dependency_error_naming_counterexample :
    resolveDependencies [⟨"Z", ["Ghost"]⟩] =
      Except.error (ResolveError.notFound "Ghost") ∧
    (mongooseResolveError (ResolveError.notFound "Ghost")).seederName = "unknown" ∧
    "unknown" ≠ "Z" ∧
    prismaResolveMessage (ResolveError.notFound "Ghost") = "Seeder not found: Ghost" ∧
    strContains (prismaResolveMessage (ResolveError.notFound "Ghost")) "Z" = false :=
  ⟨rfl, rfl, by decide, rfl, by decide⟩

/-- C3 (amended): for every seeder list with duplicate-free names in
which some seeder declares a dependency name absent from the map,
resolution fails; when the dependency graph is acyclic the error is the
missing-dependency error naming the missing name — the dependent seeder
is reported as the literal `unknown` by the mongoose/typeorm error
payload and not at all by the prisma message.  (As stated the claim
fails: no variant names the actual dependent, see the counterexample;
moreover a cycle encountered first yields the circular error instead.) -/
theorem missing_dependency_resolution_fails (seeders : List Seeder)
    (hnd : (seeders.map Seeder.name).Nodup)
    (hmiss : ∃ s ∈ seeders, ∃ d ∈ s.dependencies, seederMap seeders d = none) :
    (∃ e, resolveDependencies seeders = Except.error e) ∧
    (∀ rank : String → Nat,
      (∀ s ∈ seeders, ∀ d ∈ s.dependencies, rank d < rank s.name) →
      ∃ d, resolveDependencies seeders = Except.error (ResolveError.notFound d) ∧
        seederMap seeders d = none ∧
        (mongooseResolveError (ResolveError.notFound d)).seederName = "unknown" ∧
        prismaResolveMessage (ResolveError.notFound d) = "Seeder not found: " ++ d) := by
  have herr : ∃ e, resolveDependencies seeders = Except.error e := by
    cases hres : resolveDependencies seeders with
    | ok l =>
      exfalso
      obtain ⟨s, hs, d, hd, hnone⟩ := hmiss
      have := resolve_ok_deps_present hnd hres s hs d hd
      rw [hnone] at this; simp at this
    | error e => exact ⟨e, rfl⟩
  refine ⟨herr, ?_⟩
  intro rank hrank
  have hrank' : ∀ x s, seederMap seeders x = some s →
      ∀ d ∈ s.dependencies, rank d < rank x := by
    intro x s hx d hd
    rw [← seederMap_name hx]
    exact hrank s (seederMap_mem hx) d hd
  obtain ⟨e, hres⟩ := herr
  cases e with
  | circular c => exact absurd hres (resolve_no_circErr rank hrank' c)
  | fuelExhausted => exact absurd hres (resolve_no_fuelErr seeders)
  | notFound d =>
    exact ⟨d, hres, (resolve_err_notFound hres).1, rfl, rfl⟩

/-- C3 witness: the §8 example Z(deps:["Ghost"]) with no Ghost present. -/
theorem missing_dependency_resolution_fails_witness :
    (∃ e, resolveDependencies [⟨"Z", ["Ghost"]⟩] = Except.error e) ∧
    (∀ rank : String → Nat,
      (∀ s ∈ [(⟨"Z", ["Ghost"]⟩ : Seeder)], ∀ d ∈ s.dependencies,
        rank d < rank s.name) →
      ∃ d, resolveDependencies [⟨"Z", ["Ghost"]⟩] =
          Except.error (ResolveError.notFound d) ∧
        seederMap [⟨"Z", ["Ghost"]⟩] d = none ∧
        (mongooseResolveError (ResolveError.notFound d)).seederName = "unknown" ∧
        prismaResolveMessage (ResolveError.notFound d) = "Seeder not found: " ++ d) :=
  missing_dependency_resolution_fails [⟨"Z", ["Ghost"]⟩] (by decide)
    ⟨⟨"Z", ["Ghost"]⟩, by decide, "Ghost", by decide, rfl⟩

/-! ### Claim C4: state errors from getClient/getConnection -/

theorem foldl_no_initOk : ∀ (ops : List DbOp) (st : TestDb),
    (∀ r, DbOp.initOp true r ∉ ops) → st.isInitialized = false →
    (ops.foldl stepOp st).isInitialized = false := by
  intro ops
  induction ops with
  | nil => intro st _ h; exact h
  | cons op ops ih =>
    intro st hno hst
    cases op with
    | initOp ok r =>
      cases ok with
      | true => exact absurd (List.mem_cons_self _ _) (hno r)
      | false =>
        refine ih _ (fun r' hr' => hno r' (List.mem_cons_of_mem _ hr')) ?_
        simp [stepOp, hst]
    | destroyOp =>
      refine ih _ (fun r' hr' => hno r' (List.mem_cons_of_mem _ hr')) ?_
      simp [stepOp, hst]

theorem foldl_no_init_client : ∀ (ops : List DbOp) (st : TestDb),
    (∀ op ∈ ops, ∀ ok r, op ≠ DbOp.initOp ok r) → st.clientSet = false →
    (ops.foldl stepOp st).clientSet = false := by
  intro ops
  induction ops with
  | nil => intro st _ h; exact h
  | cons op ops ih =>
    intro st hno hst
    cases op with
    | initOp ok r => exact absurd rfl (hno _ (List.mem_cons_self _ _) ok r)
    | destroyOp =>
      refine ih _ (fun op' hop' => hno op' (List.mem_cons_of_mem _ hop')) ?_
      simp [stepOp]

/-- C4 (counterexample): `destroy()` does not reset `isInitialized`, and
nothing prevents a later `initialize()` from re-opening the adapter, so
`getClient()` after `initialize(); destroy(); initialize()` succeeds —
the claim's "at any point after destroy() has completed" fails. -/
theorem getClient_after_destroy_counterexample :
    runOps [DbOp.initOp true true, DbOp.destroyOp, DbOp.initOp true true] =
      ⟨true, true⟩ ∧
    getClient ⟨true, true⟩ = Except.ok () := ⟨rfl, rfl⟩

/-- C4 (amended): `getClient()`/`getConnection()` fails with a state
error whenever no `initialize()` call has ever succeeded (the instance
guard fires), and whenever a `destroy()` has completed with no
`initialize()` call after it (the adapter guard fires on the nulled
client).  (As stated the claim fails: a further `initialize()` call
after `destroy()` resurrects the instance, see the counterexample.) -/
theorem getClient_state_error (ops l1 l2 : List DbOp)
    (hnoinit : ∀ r, DbOp.initOp true r ∉ ops)
    (hnoreinit : ∀ op ∈ l2, ∀ ok r, op ≠ DbOp.initOp ok r) :
    getClient (runOps ops) = Except.error StateErr.notInitialized ∧
    (∃ e, getClient (runOps (l1 ++ DbOp.destroyOp :: l2)) = Except.error e) := by
  constructor
  · have hI : (runOps ops).isInitialized = false :=
      foldl_no_initOk ops newTestDb hnoinit rfl
    unfold getClient
    rw [hI]
    rfl
  · have hC : (runOps (l1 ++ DbOp.destroyOp :: l2)).clientSet = false := by
      unfold runOps
      rw [List.foldl_append]
      show (List.foldl stepOp (stepOp (List.foldl stepOp newTestDb l1) DbOp.destroyOp) l2).clientSet = false
      exact foldl_no_init_client l2 _ hnoreinit rfl
    cases hI : (runOps (l1 ++ DbOp.destroyOp :: l2)).isInitialized with
    | false =>
      exact ⟨StateErr.notInitialized, by unfold getClient; rw [hI]; rfl⟩
    | true =>
      exact ⟨StateErr.adapterNotInitialized, by unfold getClient; rw [hI, hC]; rfl⟩

/-- C4 witness: a failed initialize, and an initialize-destroy pair with
nothing after: both make `getClient` fail with a state error. -/
theorem getClient_state_error_witness :
    getClient (runOps [DbOp.initOp false true]) =
      Except.error StateErr.notInitialized ∧
    (∃ e, getClient (runOps ([DbOp.initOp true true] ++ DbOp.destroyOp :: [])) =
      Except.error e) :=
  getClient_state_error [DbOp.initOp false true] [DbOp.initOp true true] []
    (by decide) (by intro op h; cases h)

/-! ### Claim C5: the transaction cleanup strategy -/

/-- C5 (counterexample): the Mongoose adapter's `cleanup('transaction')`
is not a no-op — it falls back to truncation and deletes the stored
documents: a database with one document in `users` ends with zero. -/
theorem transaction_cleanup_mongoose_mutates :
    MongooseAdapter.cleanup "transaction" ⟨true, [⟨"users", 1⟩]⟩ =
      (none, ⟨true, [⟨"users", 0⟩]⟩) ∧
    (⟨true, [⟨"users", 0⟩]⟩ : MongooseAdapter) ≠ ⟨true, [⟨"users", 1⟩]⟩ := by
  exact ⟨by decide, by decide⟩

/-- C5 (amended): `cleanup('transaction')` is a no-op at the adapter
level for the Prisma and TypeORM adapters; the Mongoose adapter instead
falls back to truncation — its transaction cleanup coincides with its
truncate cleanup, which mutates the stored documents.  (As stated the
claim fails for the Mongoose adapter, see the counterexample.) -/
theorem transaction_cleanup_noop_prisma_typeorm
    (delOk : String → Bool) (ad : PrismaAdapter) (ad2 : TypeOrmAdapter)
    (ad3 : MongooseAdapter) :
    PrismaAdapter.cleanup delOk "transaction" ad = (none, ad) ∧
    TypeOrmAdapter.cleanup delOk "transaction" ad2 = (none, ad2) ∧
    MongooseAdapter.cleanup "transaction" ad3 = MongooseAdapter.cleanup "truncate" ad3 := by
  refine ⟨?_, ?_, ?_⟩
  · cases h : ad.clientSet <;> simp [PrismaAdapter.cleanup, h]
  · cases h : ad2.dataSourceSet <;> simp [TypeOrmAdapter.cleanup, h]
  · cases h : ad3.connectionSet <;> simp [MongooseAdapter.cleanup, h]

/-! ### Claim C6: constraint re-enabling during a truncate pass -/

theorem deleteTablesLoop_none_iff (delOk : String → Bool) :
    ∀ ts : List Table, (deleteTablesLoop delOk ts).1 = none ↔
      ∀ t ∈ ts, delOk t.name = true := by
  intro ts
  induction ts with
  | nil => simp [deleteTablesLoop]
  | cons t ts ih =>
    cases h : delOk t.name <;> simp [deleteTablesLoop, h, ih]

theorem typeormDeleteLoop_none_iff (delOk : String → Bool) :
    ∀ ts : List Table, (typeormDeleteLoop delOk ts).1 = none ↔
      ∀ t ∈ ts, (typeormSkipTable t.name || delOk t.name) = true := by
  intro ts
  induction ts with
  | nil => simp [typeormDeleteLoop]
  | cons t ts ih =>
    cases hs : typeormSkipTable t.name
    · cases h : delOk t.name <;> simp [typeormDeleteLoop, hs, h, ih]
    · simp [typeormDeleteLoop, hs, ih]

/-- C6 (counterexample): a truncate pass in which the DELETE for table
`b` fails ends with `PRAGMA foreign_keys = ON` never executed: the
constraint flag is left disabled when the pass throws. -/
theorem truncate_leaves_fk_disabled_counterexample :
    PrismaAdapter.cleanup (fun n => n == "a") "truncate"
        ⟨true, ⟨true, [⟨"a", 1⟩, ⟨"b", 2⟩]⟩⟩ =
      (some (CleanupErr.truncateFailed "b"), ⟨true, ⟨false, [⟨"a", 0⟩, ⟨"b", 2⟩]⟩⟩) ∧
    (PrismaAdapter.cleanup (fun n => n == "a") "truncate"
        ⟨true, ⟨true, [⟨"a", 1⟩, ⟨"b", 2⟩]⟩⟩).2.db.fkEnabled = false := by
  exact ⟨by decide, by decide⟩

/-- C6 (amended): in a truncate pass, foreign-key enforcement ends up
re-enabled exactly when the DELETE succeeded for every table (equally:
exactly when the pass reports no error); when an individual table's
DELETE fails, the pass aborts with enforcement still disabled — there is
no `finally` restoring it (in the TypeORM adapter the `finally` only
releases the query runner; the skipped migration/typeorm tables are not
required to succeed).  (As stated the claim fails, see the
counterexample.) -/
theorem truncate_fk_restore_characterization (delOk : String → Bool)
    (db db2 : SqliteDb) (h2 : db2.tables ≠ []) :
    ((truncateAllTables delOk db).2.fkEnabled = true ↔
      ∀ t ∈ db.tables, delOk t.name = true) ∧
    ((truncateAllTables delOk db).1 = none ↔
      ∀ t ∈ db.tables, delOk t.name = true) ∧
    ((typeormTruncateAllTables delOk true db2).2.fkEnabled = true ↔
      ∀ t ∈ db2.tables, (typeormSkipTable t.name || delOk t.name) = true) := by
  refine ⟨?_, ?_, ?_⟩
  · rw [← deleteTablesLoop_none_iff delOk db.tables]
    unfold truncateAllTables
    cases hr : deleteTablesLoop delOk db.tables with
    | mk e ts => cases e <;> simp
  · rw [← deleteTablesLoop_none_iff delOk db.tables]
    unfold truncateAllTables
    cases hr : deleteTablesLoop delOk db.tables with
    | mk e ts => cases e <;> simp
  · rw [← typeormDeleteLoop_none_iff delOk db2.tables]
    unfold typeormTruncateAllTables
    rw [if_neg (by simpa using h2)]
    cases hr : typeormDeleteLoop delOk db2.tables with
    | mk e ts => cases e <;> simp

/-- C6 witness: a two-table database where only one DELETE succeeds:
the characterization applies and shows enforcement stays off. -/
theorem truncate_fk_restore_characterization_witness :
    ((truncateAllTables (fun n => n == "a") ⟨true, [⟨"a", 1⟩, ⟨"b", 2⟩]⟩).2.fkEnabled = true ↔
      ∀ t ∈ [(⟨"a", 1⟩ : Table), ⟨"b", 2⟩], (fun n => n == "a") t.name = true) ∧
    ((truncateAllTables (fun n => n == "a") ⟨true, [⟨"a", 1⟩, ⟨"b", 2⟩]⟩).1 = none ↔
      ∀ t ∈ [(⟨"a", 1⟩ : Table), ⟨"b", 2⟩], (fun n => n == "a") t.name = true) ∧
    ((typeormTruncateAllTables (fun n => n == "a") true ⟨true, [⟨"users", 3⟩]⟩).2.fkEnabled = true ↔
      ∀ t ∈ [(⟨"users", 3⟩ : Table)],
        (typeormSkipTable t.name || (fun n => n == "a") t.name) = true) :=
  truncate_fk_restore_characterization (fun n => n == "a")
    ⟨true, [⟨"a", 1⟩, ⟨"b", 2⟩]⟩ ⟨true, [⟨"users", 3⟩]⟩ (by decide)

/-! ### Claim C7: failed create leaves the registry unchanged -/

/-- C7: when adapter initialization fails during `Manager.create`, the
thrown error propagates unchanged to the caller, the registry is exactly
what it was before the call, and the fresh id remains unregistered. -/
theorem create_failure_not_registered (reg : List (String × TestDb))
    (id errMsg : String) (h : registryGet reg id = none) :
    managerCreate reg id (Except.error errMsg) = (Except.error errMsg, reg) ∧
    registryGet (managerCreate reg id (Except.error errMsg)).2 id = none :=
  ⟨rfl, h⟩

/-- C7 witness: a failing create against the empty registry. -/
theorem create_failure_not_registered_witness :
    managerCreate [] "db-1" (Except.error "InitializationError") =
      (Except.error "InitializationError", []) ∧
    registryGet (managerCreate [] "db-1" (Except.error "InitializationError")).2
      "db-1" = none :=
  create_failure_not_registered [] "db-1" "InitializationError" rfl

/-! ### Claim C8: unrecognized cleanup strategies -/

/-- C8: on an initialized instance, a strategy string other than
`transaction`/`truncate`/`recreate` makes `cleanup` fail with the
`ConfigurationError` from `ErrorHandler.invalidCleanupStrategy`, and the
database state is returned untouched (the `default` branch throws before
any mutation), in all three adapters. -/
theorem cleanup_unknown_strategy_config_error (strategy : String)
    (delOk : String → Bool) (ad : PrismaAdapter) (ad2 : TypeOrmAdapter)
    (ad3 : MongooseAdapter)
    (h1 : strategy ≠ "transaction") (h2 : strategy ≠ "truncate")
    (h3 : strategy ≠ "recreate")
    (hc : ad.clientSet = true) (hc2 : ad2.dataSourceSet = true)
    (hc3 : ad3.connectionSet = true) :
    PrismaAdapter.cleanup delOk strategy ad =
      (some (CleanupErr.invalidStrategy strategy), ad) ∧
    TypeOrmAdapter.cleanup delOk strategy ad2 =
      (some (CleanupErr.invalidStrategy strategy), ad2) ∧
    MongooseAdapter.cleanup strategy ad3 =
      (some (CleanupErr.invalidStrategy strategy), ad3) := by
  refine ⟨?_, ?_, ?_⟩
  · simp [PrismaAdapter.cleanup, hc, h1, h2, h3]
  · simp [TypeOrmAdapter.cleanup, hc2, h1, h2, h3]
  · simp [MongooseAdapter.cleanup, hc3, h1, h2, h3]

/-- C8 witness: `cleanup("bogus")` on initialized adapters. -/
theorem cleanup_unknown_strategy_config_error_witness :
    PrismaAdapter.cleanup (fun _ => true) "bogus" ⟨true, ⟨true, [⟨"users", 3⟩]⟩⟩ =
      (some (CleanupErr.invalidStrategy "bogus"), ⟨true, ⟨true, [⟨"users", 3⟩]⟩⟩) ∧
    TypeOrmAdapter.cleanup (fun _ => true) "bogus" ⟨true, true, ⟨true, [⟨"users", 3⟩]⟩⟩ =
      (some (CleanupErr.invalidStrategy "bogus"), ⟨true, true, ⟨true, [⟨"users", 3⟩]⟩⟩) ∧
    MongooseAdapter.cleanup "bogus" ⟨true, [⟨"users", 3⟩]⟩ =
      (some (CleanupErr.invalidStrategy "bogus"), ⟨true, [⟨"users", 3⟩]⟩) :=
  cleanup_unknown_strategy_config_error "bogus" (fun _ => true)
    ⟨true, ⟨true, [⟨"users", 3⟩]⟩⟩ ⟨true, true, ⟨true, [⟨"users", 3⟩]⟩⟩
    ⟨true, [⟨"users", 3⟩]⟩
    (by decide) (by decide) (by decide) rfl rfl rfl

/-! ### Claim C9: the shape of generated ids -/

theorem isPrefixOf_append_self : ∀ (l r : List Char), l.isPrefixOf (l ++ r) = true := by
  intro l r
  induction l with
  | nil => simp
  | cons a l ih => simp [List.isPrefixOf, ih]

theorem toList_append (a b : String) : (a ++ b).toList = a.toList ++ b.toList := by
  simp [String.toList, String.data_append]

theorem strContains_infix {s sub : String}
    (h : ∃ pre post : List Char, s.toList = pre ++ sub.toList ++ post) :
    strContains s sub = true := by
  obtain ⟨pre, post, hs⟩ := h
  unfold strContains
  rw [List.any_eq_true]
  refine ⟨sub.toList ++ post, ?_, isPrefixOf_append_self _ _⟩
  rw [List.mem_tails]
  refine ⟨pre, ?_⟩
  rw [hs, List.append_assoc]

/-- C9 (counterexample): the Prisma-variant `generateId` produces
`test-db-{timestamp}-{random}` with no backend segment at all: no
backend string makes `prismaGenerateId 5 "abc"` match the claimed
`{backend}-test-db-{timestamp}-{random}` shape. -/
theorem prisma_id_no_backend_prefix_counterexample :
    prismaGenerateId 5 "abc" = "test-db-5-abc" ∧
    ¬ ∃ backend : String, HasBackendIdForm backend (prismaGenerateId 5 "abc") := by
  refine ⟨rfl, ?_⟩
  rintro ⟨b, t, r, heq⟩
  have hcontains : strContains (prismaGenerateId 5 "abc") "-test-db-" = true := by
    apply strContains_infix
    refine ⟨b.toList, ((toString t ++ "-") ++ r).toList, ?_⟩
    rw [heq]
    simp [toList_append, List.append_assoc]
  exact absurd hcontains (by decide)

/-- C9 (amended): the mongoose and typeorm managers generate ids of the
claimed `{backend}-test-db-{timestamp}-{random}` form with backend tags
`mongoose` and `typeorm`; the Prisma manager's ids are
`test-db-{timestamp}-{random}` with no backend tag.  (As stated the
claim fails for the Prisma manager, see the counterexample.) -/
theorem generateId_backend_forms (now : Nat) (rand : String) :
    HasBackendIdForm "mongoose" (mongooseGenerateId now rand) ∧
    HasBackendIdForm "typeorm" (typeormGenerateId now rand) ∧
    prismaGenerateId now rand = "test-db-" ++ toString now ++ "-" ++ rand := by
  refine ⟨⟨now, rand, ?_⟩, ⟨now, rand, ?_⟩, rfl⟩
  · show mongooseGenerateId now rand =
      "mongoose" ++ "-test-db-" ++ toString now ++ "-" ++ rand
    unfold mongooseGenerateId
    rw [show ("mongoose" ++ "-test-db-" : String) = "mongoose-test-db-" from by decide]
  · show typeormGenerateId now rand =
      "typeorm" ++ "-test-db-" ++ toString now ++ "-" ++ rand
    unfold typeormGenerateId
    rw [show ("typeorm" ++ "-test-db-" : String) = "typeorm-test-db-" from by decide]

/-! ### Claim C10: cleanup on an uninitialized or closed adapter -/

/-- C10: with no client/connection set — the adapter was never
initialized, or `close()` already nulled it — `cleanup` returns
immediately with no error and no action, for every strategy string
including unrecognized ones, in all three adapters; in particular this
holds for any adapter after `close()`. -/
theorem cleanup_noop_when_uninitialized (strategy : String)
    (delOk : String → Bool) (ad : PrismaAdapter) (ad2 : TypeOrmAdapter)
    (ad3 : MongooseAdapter) (ad4 : PrismaAdapter)
    (hc : ad.clientSet = false) (hc2 : ad2.dataSourceSet = false)
    (hc3 : ad3.connectionSet = false) :
    PrismaAdapter.cleanup delOk strategy ad = (none, ad) ∧
    TypeOrmAdapter.cleanup delOk strategy ad2 = (none, ad2) ∧
    MongooseAdapter.cleanup strategy ad3 = (none, ad3) ∧
    PrismaAdapter.cleanup delOk strategy (PrismaAdapter.close ad4) =
      (none, PrismaAdapter.close ad4) := by
  refine ⟨?_, ?_, ?_, ?_⟩
  · simp [PrismaAdapter.cleanup, hc]
  · simp [TypeOrmAdapter.cleanup, hc2]
  · simp [MongooseAdapter.cleanup, hc3]
  · simp [PrismaAdapter.cleanup, PrismaAdapter.close]

/-- C10 witness: `cleanup("bogus")` on never-initialized adapters
holding data, and on a closed adapter. -/
theorem cleanup_noop_when_uninitialized_witness :
    PrismaAdapter.cleanup (fun _ => true) "bogus" ⟨false, ⟨true, [⟨"users", 3⟩]⟩⟩ =
      (none, ⟨false, ⟨true, [⟨"users", 3⟩]⟩⟩) ∧
    TypeOrmAdapter.cleanup (fun _ => true) "bogus" ⟨false, true, ⟨true, [⟨"users", 3⟩]⟩⟩ =
      (none, ⟨false, true, ⟨true, [⟨"users", 3⟩]⟩⟩) ∧
    MongooseAdapter.cleanup "bogus" ⟨false, [⟨"users", 3⟩]⟩ =
      (none, ⟨false, [⟨"users", 3⟩]⟩) ∧
    PrismaAdapter.cleanup (fun _ => true) "bogus"
        (PrismaAdapter.close ⟨true, ⟨true, [⟨"users", 3⟩]⟩⟩) =
      (none, PrismaAdapter.close ⟨true, ⟨true, [⟨"users", 3⟩]⟩⟩) :=
  cleanup_noop_when_uninitialized "bogus" (fun _ => true)
    ⟨false, ⟨true, [⟨"users", 3⟩]⟩⟩ ⟨false, true, ⟨true, [⟨"users", 3⟩]⟩⟩
    ⟨false, [⟨"users", 3⟩]⟩ ⟨true, ⟨true, [⟨"users", 3⟩]⟩⟩ rfl rfl rfl

end NestTestKit
